import Mathlib

/-!
Shallow embedding of `src/ipfs_gateway.py` (BlackRoad-OS/blackroad-ipfs-gateway).

The gateway keeps a SQLite table `objects` (one row per CID, primary key `cid`,
unique `local_path`) and a blob directory `STORE_DIR` holding one file per CID.
We model the table as a list of `ContentObject` rows in insertion order (a SQLite
full scan returns rows in rowid order, and `INSERT OR REPLACE` deletes every
conflicting row and appends a fresh one), and the blob directory as an
association list from file path to byte content.

Timestamps: the source stores `datetime.now().isoformat()` strings and compares
them with `<`; for fixed-format ISO-8601 strings lexicographic order coincides
with chronological order, so we embed timestamps as integers (seconds) compared
with the integer order, and the 24-hour GC window as `24 * 60 * 60` seconds.

Machine words inside SHA-256 are naturals reduced mod `2 ^ 32`.
-/

/-- A byte is a natural number below 256; payloads are byte lists. -/
abbrev Bytes := List Nat

/-! ### SHA-256 (the `hashlib.sha256` collaborator used by `_compute_cid`) -/

def M32 : Nat := 2 ^ 32

def add32 (a b : Nat) : Nat := (a + b) % M32

def rotr32 (k x : Nat) : Nat := (x >>> k) ||| ((x % 2 ^ k) <<< (32 - k))

def ch32 (x y z : Nat) : Nat := (x &&& y) ^^^ ((M32 - 1 - x) &&& z)

def maj32 (x y z : Nat) : Nat := (x &&& y) ^^^ (x &&& z) ^^^ (y &&& z)

def sigBig0 (x : Nat) : Nat := rotr32 2 x ^^^ rotr32 13 x ^^^ rotr32 22 x

def sigBig1 (x : Nat) : Nat := rotr32 6 x ^^^ rotr32 11 x ^^^ rotr32 25 x

def sigSmall0 (x : Nat) : Nat := rotr32 7 x ^^^ rotr32 18 x ^^^ (x >>> 3)

def sigSmall1 (x : Nat) : Nat := rotr32 17 x ^^^ rotr32 19 x ^^^ (x >>> 10)

def sha256KqA : List Nat :=
  [0x428a2f98, 0x71374491, 0xb5c0fbcf, 0xe9b5dba5, 0x3956c25b, 0x59f111f1, 0x923f82a4, 0xab1c5ed5]

def sha256KqB : List Nat :=
  [0xd807aa98, 0x12835b01, 0x243185be, 0x550c7dc3, 0x72be5d74, 0x80deb1fe, 0x9bdc06a7, 0xc19bf174]

def sha256KqC : List Nat :=
  [0xe49b69c1, 0xefbe4786, 0x0fc19dc6, 0x240ca1cc, 0x2de92c6f, 0x4a7484aa, 0x5cb0a9dc, 0x76f988da]

def sha256KqD : List Nat :=
  [0x983e5152, 0xa831c66d, 0xb00327c8, 0xbf597fc7, 0xc6e00bf3, 0xd5a79147, 0x06ca6351, 0x14292967]

def sha256KqE : List Nat :=
  [0x27b70a85, 0x2e1b2138, 0x4d2c6dfc, 0x53380d13, 0x650a7354, 0x766a0abb, 0x81c2c92e, 0x92722c85]

def sha256KqF : List Nat :=
  [0xa2bfe8a1, 0xa81a664b, 0xc24b8b70, 0xc76c51a3, 0xd192e819, 0xd6990624, 0xf40e3585, 0x106aa070]

def sha256KqG : List Nat :=
  [0x19a4c116, 0x1e376c08, 0x2748774c, 0x34b0bcb5, 0x391c0cb3, 0x4ed8aa4a, 0x5b9cca4f, 0x682e6ff3]

def sha256KqH : List Nat :=
  [0x748f82ee, 0x78a5636f, 0x84c87814, 0x8cc70208, 0x90befffa, 0xa4506ceb, 0xbef9a3f7, 0xc67178f2]

/-- The 64 SHA-256 round constants, in table order. -/
def sha256K : List Nat :=
  sha256KqA ++ sha256KqB ++ sha256KqC ++ sha256KqD ++ sha256KqE ++ sha256KqF ++ sha256KqG ++ sha256KqH

structure Sha256Digest where
  s0 : Nat
  s1 : Nat
  s2 : Nat
  s3 : Nat
  s4 : Nat
  s5 : Nat
  s6 : Nat
  s7 : Nat

def sha256Init : Sha256Digest :=
  ⟨0x6a09e667, 0xbb67ae85, 0x3c6ef372, 0xa54ff53a, 0x510e527f, 0x9b05688c, 0x1f83d9ab, 0x5be0cd19⟩

def sha256Round (st : Sha256Digest) (ki wi : Nat) : Sha256Digest :=
  let t1 := add32 (add32 (add32 (add32 st.s7 (sigBig1 st.s4)) (ch32 st.s4 st.s5 st.s6)) ki) wi
  let t2 := add32 (sigBig0 st.s0) (maj32 st.s0 st.s1 st.s2)
  ⟨add32 t1 t2, st.s0, st.s1, st.s2, add32 st.s3 t1, st.s4, st.s5, st.s6⟩

def bytesToWords : List Nat → List Nat
  | b0 :: b1 :: b2 :: b3 :: rest => (((b0 * 256 + b1) * 256 + b2) * 256 + b3) :: bytesToWords rest
  | _ => []

def sha256Extend (w16 : List Nat) : List Nat :=
  (List.range 48).foldl
    (fun w _ =>
      let k := w.length
      w ++ [add32 (add32 (sigSmall1 (w.getD (k - 2) 0)) (w.getD (k - 7) 0))
              (add32 (sigSmall0 (w.getD (k - 15) 0)) (w.getD (k - 16) 0))])
    w16

def sha256Compress (st : Sha256Digest) (chunk : List Nat) : Sha256Digest :=
  let w := sha256Extend (bytesToWords chunk)
  let r := (sha256K.zip w).foldl (fun acc kw => sha256Round acc kw.1 kw.2) st
  ⟨add32 st.s0 r.s0, add32 st.s1 r.s1, add32 st.s2 r.s2, add32 st.s3 r.s3,
   add32 st.s4 r.s4, add32 st.s5 r.s5, add32 st.s6 r.s6, add32 st.s7 r.s7⟩

def sha256Pad (msg : List Nat) : List Nat :=
  let bitLen := msg.length * 8
  let zeros := (64 - ((msg.length + 9) % 64)) % 64
  msg ++ 128 :: (List.replicate zeros 0 ++ (List.range 8).map (fun i => (bitLen >>> (56 - 8 * i)) % 256))

def sha256BlocksAux : Nat → Sha256Digest → List Nat → Sha256Digest
  | 0, st, _ => st
  | fuel + 1, st, bs =>
    if bs.length < 64 then st
    else sha256BlocksAux fuel (sha256Compress st (bs.take 64)) (bs.drop 64)

/-- Fold `sha256Compress` over the 64-byte blocks of the padded message.  The
fuel argument (the list length) strictly dominates the number of 64-byte steps,
so the loop consumes every full block, exactly as the chunked update loop of
`hashlib`; structural recursion on the fuel keeps the definition computable by
kernel reduction. -/
def sha256Blocks (st : Sha256Digest) (bs : List Nat) : Sha256Digest :=
  sha256BlocksAux bs.length st bs

def hexChar (n : Nat) : Char := if n < 10 then Char.ofNat (48 + n) else Char.ofNat (87 + n)

def wordHexChars (n : Nat) : List Char :=
  (List.range 8).map (fun i => hexChar ((n >>> (28 - 4 * i)) % 16))

/-- The 64 lowercase hex characters of `hashlib.sha256(msg).hexdigest()`. -/
def sha256HexChars (msg : List Nat) : List Char :=
  let d := sha256Blocks sha256Init (sha256Pad msg)
  wordHexChars d.s0 ++ wordHexChars d.s1 ++ wordHexChars d.s2 ++ wordHexChars d.s3 ++
  wordHexChars d.s4 ++ wordHexChars d.s5 ++ wordHexChars d.s6 ++ wordHexChars d.s7

/-! ### Data model -/

def STORE_DIR : String := "~/.blackroad/ipfs-store"

/-- One row of the `objects` table (the Python `ContentObject` dataclass). -/
structure ContentObject where
  cid : String
  name : String
  size_bytes : Nat
  mime_type : String
  pinned : Bool
  uploaded_at : Int
  local_path : String
deriving DecidableEq

/-- The gateway's durable state: the metadata index rows (in rowid order) and
the blob directory as an association list from path to bytes. -/
structure GatewayState where
  objects : List ContentObject
  store : List (String × Bytes)
deriving DecidableEq

/-- `Path(p).exists()` for a file inside the blob directory. -/
def fsExists (path : String) (store : List (String × Bytes)) : Bool :=
  store.any (fun e => e.1 == path)

/-- `shutil.copy2` / plain file write: overwrite the path's content. -/
def fsWrite (path : String) (data : Bytes) (store : List (String × Bytes)) :
    List (String × Bytes) :=
  store.filter (fun e => e.1 != path) ++ [(path, data)]

/-- `Path(p).unlink()`: remove the file, or fail (`none`, the raised
`FileNotFoundError`) when the path is absent. -/
def fsUnlink (path : String) (store : List (String × Bytes)) :
    Option (List (String × Bytes)) :=
  if fsExists path store then some (store.filter (fun e => e.1 != path)) else none

inductive GatewayError where
  | fileNotFound : GatewayError
deriving DecidableEq

namespace IPFSGateway

/-- `STORE_DIR / cid`, the canonical blob path used by `add_file`. -/
def blobPath (cid : String) : String := STORE_DIR ++ "/" ++ cid

/-- `_compute_cid`: `"Qm"` followed by the first 44 hex characters of the
SHA-256 digest of the data. -/
def _compute_cid (data : Bytes) : String :=
  "Qm" ++ String.mk ((sha256HexChars data).take 44)

/-- `_store_metadata`: `INSERT OR REPLACE INTO objects`.  SQLite deletes every
row violating a uniqueness constraint (`cid` primary key, `local_path` unique)
and appends the fresh row. -/
def _store_metadata (obj : ContentObject) (objects : List ContentObject) :
    List ContentObject :=
  objects.filter (fun r => !(r.cid == obj.cid || r.local_path == obj.local_path)) ++ [obj]

/-- The suffix-based MIME classification chain of `add_file`. -/
def mimeFor (suffix : String) : String :=
  if suffix == ".json" then "application/json"
  else if suffix == ".txt" then "text/plain"
  else if suffix == ".md" then "text/markdown"
  else "application/octet-stream"

/-- `add_file(path)`.  The filesystem lookup of the source path is passed in as
`src` (`none` when `Path(path).exists()` is false, in which case the call raises
`FileNotFoundError` before touching the store); `fileName` and `suffix` are
`Path(path).name` and `Path(path).suffix`; `now` is `datetime.now()`. -/
def add_file (st : GatewayState) (src : Option Bytes) (fileName suffix : String)
    (now : Int) : GatewayState × Except GatewayError ContentObject :=
  match src with
  | none => (st, .error .fileNotFound)
  | some data =>
    let cid := _compute_cid data
    let lp := blobPath cid
    let obj : ContentObject :=
      { cid := cid, name := fileName, size_bytes := data.length,
        mime_type := mimeFor suffix, pinned := false, uploaded_at := now,
        local_path := lp }
    ({ objects := _store_metadata obj st.objects, store := fsWrite lp data st.store },
     .ok obj)

/-- `get(cid)`: `SELECT * FROM objects WHERE cid = ?`, first row or none. -/
def get (st : GatewayState) (cid : String) : Option ContentObject :=
  st.objects.find? (fun r => r.cid == cid)

/-- `pin(cid)`: false when the cid is unknown, else
`UPDATE objects SET pinned = 1 WHERE cid = ?`. -/
def pin (st : GatewayState) (cid : String) : GatewayState × Bool :=
  match get st cid with
  | none => (st, false)
  | some _ =>
    ({ st with objects :=
        st.objects.map (fun r => if r.cid == cid then { r with pinned := true } else r) },
     true)

/-- `unpin(cid)`: false when the cid is unknown, else
`UPDATE objects SET pinned = 0 WHERE cid = ?`. -/
def unpin (st : GatewayState) (cid : String) : GatewayState × Bool :=
  match get st cid with
  | none => (st, false)
  | some _ =>
    ({ st with objects :=
        st.objects.map (fun r => if r.cid == cid then { r with pinned := false } else r) },
     true)

/-- The fixed GC age threshold: `timedelta(hours=24)` in seconds. -/
def maxAge : Int := 24 * 60 * 60

/-- `SELECT cid, local_path FROM objects WHERE pinned = 0 AND uploaded_at < cutoff`
with `cutoff = now - 24h`. -/
def eligibleRows (now : Int) (objects : List ContentObject) : List (String × String) :=
  (objects.filter (fun r => r.pinned == false && decide (r.uploaded_at < now - maxAge))).map
    (fun r => (r.cid, r.local_path))

/-- The per-row loop of `gc`: `try: unlink; DELETE  except: print and continue`.
A failing `unlink` (blob already absent) skips that row's index `DELETE` but the
loop goes on with the remaining rows. -/
def gcLoop : List (String × String) → List ContentObject × List (String × Bytes) →
    List ContentObject × List (String × Bytes)
  | [], acc => acc
  | (cid, lp) :: rest, (objects, store) =>
    match fsUnlink lp store with
    | some store' => gcLoop rest (objects.filter (fun r => r.cid != cid), store')
    | none => gcLoop rest (objects, store)

/-- `gc()`: select the eligible rows, run the per-row deletion loop, and return
`len(rows)` together with the new state. -/
def gc (st : GatewayState) (now : Int) : GatewayState × Nat :=
  let rows := eligibleRows now st.objects
  let res := gcLoop rows (st.objects, st.store)
  ({ objects := res.1, store := res.2 }, rows.length)

/-- The versioned bundle written by `export_car`. -/
structure CarBundle where
  version : Nat
  objects : List ContentObject
deriving DecidableEq

/-- `export_car(cids, out)`: look every cid up, silently skip the misses, and
emit `{'version': 1, 'objects': objects}` (metadata only, no blob bytes). -/
def export_car (st : GatewayState) (cids : List String) : CarBundle :=
  { version := 1,
    objects := cids.foldl
      (fun acc cid =>
        match get st cid with
        | some o => acc ++ [o]
        | none => acc)
      [] }

/-! ### State invariants used as hypotheses -/

/-- Index well-formedness: the uniqueness constraints of the `objects` table
(`cid` primary key, `local_path UNIQUE`) and of the filesystem (one entry per
path). -/
abbrev WF (st : GatewayState) : Prop :=
  st.objects.Pairwise (fun a b => a.cid ≠ b.cid ∧ a.local_path ≠ b.local_path) ∧
  st.store.Pairwise (fun a b => a.1 ≠ b.1)

/-- Referential integrity: every index row's blob exists, and every blob is
referenced by some index row. -/
abbrev RefIntegrity (st : GatewayState) : Prop :=
  (∀ r ∈ st.objects, fsExists r.local_path st.store = true) ∧
  (∀ e ∈ st.store, ∃ r ∈ st.objects, r.local_path = e.1)

/-- Every row's `local_path` is the canonical `STORE_DIR / cid` location, as
written by `add_file`. -/
abbrev CanonicalPaths (st : GatewayState) : Prop :=
  ∀ r ∈ st.objects, r.local_path = blobPath r.cid

end IPFSGateway

/-! ### Helper lemmas about the filesystem model -/

theorem fsExists_of_sublist {store' store : List (String × Bytes)} {p : String}
    (hs : store'.Sublist store) (h : fsExists p store' = true) : fsExists p store = true := by
  rcases List.any_eq_true.mp h with ⟨e, he, hpe⟩
  exact List.any_eq_true.mpr ⟨e, hs.subset he, hpe⟩

theorem fsExists_filter_of_ne {store : List (String × Bytes)} {p p₀ : String}
    (h : fsExists p store = true) (hne : p ≠ p₀) :
    fsExists p (store.filter (fun e => e.1 != p₀)) = true := by
  rcases List.any_eq_true.mp h with ⟨e, he, hpe⟩
  refine List.any_eq_true.mpr ⟨e, List.mem_filter.mpr ⟨he, ?_⟩, hpe⟩
  have : e.1 = p := by simpa using hpe
  simpa [this] using hne

theorem fsExists_filter_self (store : List (String × Bytes)) (p : String) :
    fsExists p (store.filter (fun e => e.1 != p)) = false := by
  by_contra h
  rcases List.any_eq_true.mp (Bool.of_not_eq_false h) with ⟨e, he, hpe⟩
  rcases List.mem_filter.mp he with ⟨-, hkeep⟩
  have h1 : e.1 = p := by simpa using hpe
  simp [h1] at hkeep

/-! ### Helper lemmas about the GC loop -/

theorem gcLoop_objects_sublist (rows : List (String × String)) (objects : List ContentObject)
    (store : List (String × Bytes)) :
    (IPFSGateway.gcLoop rows (objects, store)).1.Sublist objects := by
  induction rows generalizing objects store with
  | nil => simp [IPFSGateway.gcLoop]
  | cons q rest ih =>
    obtain ⟨c, p⟩ := q
    simp only [IPFSGateway.gcLoop]
    cases h : fsUnlink p store with
    | none => exact ih objects store
    | some store' =>
      exact (ih _ store').trans (List.filter_sublist objects)

theorem gcLoop_store_sublist (rows : List (String × String)) (objects : List ContentObject)
    (store : List (String × Bytes)) :
    (IPFSGateway.gcLoop rows (objects, store)).2.Sublist store := by
  induction rows generalizing objects store with
  | nil => simp [IPFSGateway.gcLoop]
  | cons q rest ih =>
    obtain ⟨c, p⟩ := q
    simp only [IPFSGateway.gcLoop]
    cases h : fsUnlink p store with
    | none => exact ih objects store
    | some store' =>
      have hs : store' = store.filter (fun e => e.1 != p) := by
        by_cases hex : fsExists p store
        · simpa [fsUnlink, hex] using h.symm
        · simp [fsUnlink, hex] at h
      exact (ih _ store').trans (hs ▸ List.filter_sublist store)

theorem gcLoop_keep_obj {rows : List (String × String)} {objects : List ContentObject}
    {store : List (String × Bytes)} {r : ContentObject} (hmem : r ∈ objects)
    (hrows : ∀ q ∈ rows, q.1 ≠ r.cid) :
    r ∈ (IPFSGateway.gcLoop rows (objects, store)).1 := by
  induction rows generalizing objects store with
  | nil => simpa [IPFSGateway.gcLoop] using hmem
  | cons q rest ih =>
    obtain ⟨c, p⟩ := q
    have hc : c ≠ r.cid := hrows (c, p) (List.mem_cons_self _ _)
    simp only [IPFSGateway.gcLoop]
    cases h : fsUnlink p store with
    | none => exact ih hmem (fun q hq => hrows q (List.mem_cons_of_mem _ hq))
    | some store' =>
      refine ih (List.mem_filter.mpr ⟨hmem, ?_⟩) (fun q hq => hrows q (List.mem_cons_of_mem _ hq))
      simpa using fun hEq => hc hEq.symm

theorem gcLoop_keep_path {rows : List (String × String)} {objects : List ContentObject}
    {store : List (String × Bytes)} {p : String} (hex : fsExists p store = true)
    (hrows : ∀ q ∈ rows, q.2 ≠ p) :
    fsExists p (IPFSGateway.gcLoop rows (objects, store)).2 = true := by
  induction rows generalizing objects store with
  | nil => simpa [IPFSGateway.gcLoop] using hex
  | cons q rest ih =>
    obtain ⟨c, p₀⟩ := q
    have hp : p ≠ p₀ := fun hEq => hrows (c, p₀) (List.mem_cons_self _ _) hEq.symm
    simp only [IPFSGateway.gcLoop]
    cases h : fsUnlink p₀ store with
    | none => exact ih hex (fun q hq => hrows q (List.mem_cons_of_mem _ hq))
    | some store' =>
      have hs : store' = store.filter (fun e => e.1 != p₀) := by
        by_cases hx : fsExists p₀ store
        · simpa [fsUnlink, hx] using h.symm
        · simp [fsUnlink, hx] at h
      subst hs
      exact ih (fsExists_filter_of_ne hex hp) (fun q hq => hrows q (List.mem_cons_of_mem _ hq))

theorem gcLoop_keep_obj_dead {rows : List (String × String)} {objects : List ContentObject}
    {store : List (String × Bytes)} {r : ContentObject} (hmem : r ∈ objects)
    (hrows : ∀ q ∈ rows, q.1 = r.cid → fsExists q.2 store = false) :
    r ∈ (IPFSGateway.gcLoop rows (objects, store)).1 := by
  induction rows generalizing objects store with
  | nil => simpa [IPFSGateway.gcLoop] using hmem
  | cons q rest ih =>
    obtain ⟨c, p⟩ := q
    simp only [IPFSGateway.gcLoop]
    cases h : fsUnlink p store with
    | none => exact ih hmem (fun q hq => hrows q (List.mem_cons_of_mem _ hq))
    | some store' =>
      have hx : fsExists p store = true := by
        by_cases hx : fsExists p store
        · exact hx
        · simp [fsUnlink, hx] at h
      have hs : store' = store.filter (fun e => e.1 != p) := by
        simpa [fsUnlink, hx] using h.symm
      have hc : c ≠ r.cid := by
        intro hEq
        have := hrows (c, p) (List.mem_cons_self _ _) hEq
        simp [this] at hx
      subst hs
      refine ih (List.mem_filter.mpr ⟨hmem, ?_⟩) ?_
      · simpa using fun hEq => hc hEq.symm
      · intro q hq hqc
        have hfalse := hrows q (List.mem_cons_of_mem _ hq) hqc
        by_cases hq2 : fsExists q.2 (store.filter (fun e => e.1 != p)) = true
        · exact absurd (fsExists_of_sublist (List.filter_sublist store) hq2) (by simp [hfalse])
        · exact Bool.eq_false_iff.mpr (fun hEq => hq2 hEq)

theorem gcLoop_delete {rows : List (String × String)} {objects : List ContentObject}
    {store : List (String × Bytes)} {c p : String}
    (hdist : rows.Pairwise (fun a b => a.1 ≠ b.1 ∧ a.2 ≠ b.2))
    (hmem : (c, p) ∈ rows) (hex : fsExists p store = true) :
    (∀ q ∈ (IPFSGateway.gcLoop rows (objects, store)).1, q.cid ≠ c) ∧
    fsExists p (IPFSGateway.gcLoop rows (objects, store)).2 = false := by
  induction rows generalizing objects store with
  | nil => cases hmem
  | cons q₀ rest ih =>
    obtain ⟨c₀, p₀⟩ := q₀
    rcases List.pairwise_cons.mp hdist with ⟨hhead, hrest⟩
    simp only [IPFSGateway.gcLoop]
    rcases List.mem_cons.mp hmem with hEq | hmemRest
    · have hc : c = c₀ := congrArg Prod.fst hEq
      have hp : p = p₀ := congrArg Prod.snd hEq
      subst hc; subst hp
      have hu : fsUnlink p store = some (store.filter (fun e => e.1 != p)) := by
        simp [fsUnlink, hex]
      rw [hu]
      constructor
      · intro q hq
        have hq' := (gcLoop_objects_sublist rest _ _).subset hq
        have := (List.mem_filter.mp hq').2
        simpa using this
      · have hsub := gcLoop_store_sublist rest (objects.filter (fun r => r.cid != c))
          (store.filter (fun e => e.1 != p))
        by_cases hfin : fsExists p (IPFSGateway.gcLoop rest
            (objects.filter (fun r => r.cid != c), store.filter (fun e => e.1 != p))).2 = true
        · have := fsExists_of_sublist hsub hfin
          simp [fsExists_filter_self] at this
        · exact Bool.eq_false_iff.mpr (fun hEq' => hfin hEq')
    · have hne := hhead (c, p) hmemRest
      cases h : fsUnlink p₀ store with
      | none => exact ih hrest hmemRest hex
      | some store' =>
        have hx : fsExists p₀ store = true := by
          by_cases hx : fsExists p₀ store
          · exact hx
          · simp [fsUnlink, hx] at h
        have hs : store' = store.filter (fun e => e.1 != p₀) := by
          simpa [fsUnlink, hx] using h.symm
        subst hs
        exact ih hrest hmemRest (fsExists_filter_of_ne hex (fun hEq' => hne.2 hEq'.symm))

/-! ### Helper lemmas about eligibility selection and index lookup -/

theorem eligibleRows_mem_elim {now : Int} {objects : List ContentObject} {q : String × String}
    (h : q ∈ IPFSGateway.eligibleRows now objects) :
    ∃ r ∈ objects, r.pinned = false ∧ r.uploaded_at < now - IPFSGateway.maxAge ∧
      r.cid = q.1 ∧ r.local_path = q.2 := by
  rcases List.mem_map.mp h with ⟨r, hr, hEq⟩
  rcases List.mem_filter.mp hr with ⟨hrm, hpred⟩
  have hpin : r.pinned = false := by
    have := (Bool.and_eq_true ..).mp hpred
    simpa using this.1
  have hage : r.uploaded_at < now - IPFSGateway.maxAge := by
    have := (Bool.and_eq_true ..).mp hpred
    simpa using this.2
  exact ⟨r, hrm, hpin, hage, congrArg Prod.fst hEq, congrArg Prod.snd hEq⟩

theorem eligibleRows_mem_intro {now : Int} {objects : List ContentObject} {r : ContentObject}
    (hr : r ∈ objects) (hpin : r.pinned = false)
    (hage : r.uploaded_at < now - IPFSGateway.maxAge) :
    (r.cid, r.local_path) ∈ IPFSGateway.eligibleRows now objects :=
  List.mem_map.mpr ⟨r, List.mem_filter.mpr ⟨hr, by simp [hpin, hage]⟩, rfl⟩

theorem eligibleRows_pairwise {now : Int} {objects : List ContentObject}
    (h : objects.Pairwise (fun a b => a.cid ≠ b.cid ∧ a.local_path ≠ b.local_path)) :
    (IPFSGateway.eligibleRows now objects).Pairwise (fun a b => a.1 ≠ b.1 ∧ a.2 ≠ b.2) := by
  refine List.pairwise_map.mpr ?_
  exact (h.sublist (List.filter_sublist objects)).imp (fun hab => hab)

/-- Distinct members of a pairwise-distinct row list have distinct cids and paths. -/
theorem pairwise_objects_forall {objects : List ContentObject}
    (h : objects.Pairwise (fun a b => a.cid ≠ b.cid ∧ a.local_path ≠ b.local_path))
    {a b : ContentObject} (ha : a ∈ objects) (hb : b ∈ objects) (hne : a ≠ b) :
    a.cid ≠ b.cid ∧ a.local_path ≠ b.local_path :=
  h.forall (fun _ _ hab => ⟨hab.1.symm, hab.2.symm⟩) ha hb hne

theorem find?_cid_unique {l : List ContentObject} {r : ContentObject}
    (hp : l.Pairwise (fun a b => a.cid ≠ b.cid)) (hr : r ∈ l) :
    l.find? (fun q => q.cid == r.cid) = some r := by
  induction l with
  | nil => cases hr
  | cons a l ih =>
    rcases List.pairwise_cons.mp hp with ⟨hhead, htail⟩
    rcases List.mem_cons.mp hr with rfl | hmem
    · exact List.find?_cons_of_pos l (by simp)
    · have hne : ¬((fun q => q.cid == r.cid) a = true) := by
        simp only [beq_iff_eq]
        simpa using hhead r hmem
      rw [List.find?_cons_of_neg l hne]
      exact ih htail hmem

theorem find?_map_cid_inv {l : List ContentObject} {c : String}
    {f : ContentObject → ContentObject} (hcid : ∀ x, (f x).cid = x.cid) :
    (l.map f).find? (fun q => q.cid == c) = (l.find? (fun q => q.cid == c)).map f := by
  induction l with
  | nil => rfl
  | cons a l ih =>
    rw [List.map_cons]
    by_cases h : ((fun q : ContentObject => q.cid == c) a) = true
    · have h2 : ((fun q : ContentObject => q.cid == c) (f a)) = true := by
        simpa [hcid] using h
      have hL : List.find? (fun q : ContentObject => q.cid == c) (f a :: l.map f)
          = some (f a) := List.find?_cons_of_pos _ h2
      have hR : List.find? (fun q : ContentObject => q.cid == c) (a :: l)
          = some a := List.find?_cons_of_pos _ h
      rw [hL, hR]
      rfl
    · have h2 : ¬((fun q : ContentObject => q.cid == c) (f a)) = true := by
        simpa [hcid] using h
      have hL : List.find? (fun q : ContentObject => q.cid == c) (f a :: l.map f)
          = List.find? (fun q : ContentObject => q.cid == c) (l.map f) :=
        List.find?_cons_of_neg _ h2
      have hR : List.find? (fun q : ContentObject => q.cid == c) (a :: l)
          = List.find? (fun q : ContentObject => q.cid == c) l :=
        List.find?_cons_of_neg _ h
      rw [hL, hR, ih]

/-! ### The GC loop under a well-formed, referentially intact state -/

theorem gcLoop_integrity (rows : List (String × String)) (objects : List ContentObject)
    (store : List (String × Bytes))
    (hobj : objects.Pairwise (fun a b => a.cid ≠ b.cid ∧ a.local_path ≠ b.local_path))
    (hrows : rows.Pairwise (fun a b => a.1 ≠ b.1))
    (h2 : ∀ r ∈ objects, fsExists r.local_path store = true)
    (h3 : ∀ e ∈ store, ∃ r ∈ objects, r.local_path = e.1)
    (h4 : ∀ q ∈ rows, ∃ r ∈ objects, r.cid = q.1 ∧ r.local_path = q.2) :
    (∀ r ∈ (IPFSGateway.gcLoop rows (objects, store)).1,
        fsExists r.local_path (IPFSGateway.gcLoop rows (objects, store)).2 = true) ∧
    (∀ e ∈ (IPFSGateway.gcLoop rows (objects, store)).2,
        ∃ r ∈ (IPFSGateway.gcLoop rows (objects, store)).1, r.local_path = e.1) := by
  induction rows generalizing objects store with
  | nil =>
    exact ⟨by simpa [IPFSGateway.gcLoop] using h2, by simpa [IPFSGateway.gcLoop] using h3⟩
  | cons q rest ih =>
    obtain ⟨c, p⟩ := q
    rcases h4 (c, p) (List.mem_cons_self _ _) with ⟨r₀, hr₀, hc₀x, hp₀x⟩
    have hc₀ : r₀.cid = c := hc₀x
    have hp₀ : r₀.local_path = p := hp₀x
    have hex : fsExists p store = true := by
      have h := h2 r₀ hr₀
      rw [hp₀] at h
      exact h
    have hu : fsUnlink p store = some (store.filter (fun e => e.1 != p)) := by
      simp [fsUnlink, hex]
    rcases List.pairwise_cons.mp hrows with ⟨hhead, hrest⟩
    simp only [IPFSGateway.gcLoop]
    rw [hu]
    apply ih
    · exact hobj.sublist (List.filter_sublist _)
    · exact hrest
    · intro r hr
      rcases List.mem_filter.mp hr with ⟨hrm, hkeep⟩
      have hrc : r.cid ≠ c := by simpa using hkeep
      have hrp : r.local_path ≠ p := by
        intro hEq
        by_cases hrr : r = r₀
        · exact hrc (hrr ▸ hc₀)
        · exact (pairwise_objects_forall hobj hrm hr₀ hrr).2 (hEq.trans hp₀.symm)
      exact fsExists_filter_of_ne (h2 r hrm) hrp
    · intro e he
      rcases List.mem_filter.mp he with ⟨hem, hkeep⟩
      have hep : e.1 ≠ p := by simpa using hkeep
      rcases h3 e hem with ⟨r, hrm, hrp⟩
      have hrc : r.cid ≠ c := by
        intro hEq
        by_cases hrr : r = r₀
        · apply hep
          calc e.1 = r.local_path := hrp.symm
            _ = r₀.local_path := by rw [hrr]
            _ = p := hp₀
        · exact (pairwise_objects_forall hobj hrm hr₀ hrr).1 (hEq.trans hc₀.symm)
      exact ⟨r, List.mem_filter.mpr ⟨hrm, by simpa using hrc⟩, hrp⟩
    · intro q hq
      rcases h4 q (List.mem_cons_of_mem _ hq) with ⟨r, hrm, hrc, hrp⟩
      have hqc : q.1 ≠ c := fun hEq => (hhead q hq) hEq.symm
      refine ⟨r, List.mem_filter.mpr ⟨hrm, ?_⟩, hrc, hrp⟩
      simp only [bne_iff_ne]
      exact fun hEq => hqc (hrc ▸ hEq)

theorem filter_ne_cid_length {l : List ContentObject} {r₀ : ContentObject}
    (hp : l.Pairwise (fun a b => a.cid ≠ b.cid)) (hr : r₀ ∈ l) {c : String}
    (hc : r₀.cid = c) :
    (l.filter (fun r => r.cid != c)).length + 1 = l.length := by
  induction l with
  | nil => cases hr
  | cons a l ih =>
    rcases List.pairwise_cons.mp hp with ⟨hhead, htail⟩
    rcases List.mem_cons.mp hr with rfl | hmem
    · have hdrop : ¬((fun r : ContentObject => r.cid != c) r₀ = true) := by simp [hc]
      have hstep : List.filter (fun r : ContentObject => r.cid != c) (r₀ :: l)
          = List.filter (fun r : ContentObject => r.cid != c) l :=
        List.filter_cons_of_neg hdrop
      rw [hstep]
      have hall : l.filter (fun r => r.cid != c) = l :=
        List.filter_eq_self.mpr (fun b hb => by
          simpa using fun hEq => (hhead b hb) (hc.trans hEq.symm))
      simp [hall]
    · have hane : a.cid ≠ c := fun hEq => (hhead r₀ hmem) (hEq.trans hc.symm)
      have hkeep : ((fun r : ContentObject => r.cid != c) a = true) := by simpa using hane
      have hstep : List.filter (fun r : ContentObject => r.cid != c) (a :: l)
          = a :: List.filter (fun r : ContentObject => r.cid != c) l :=
        List.filter_cons_of_pos hkeep
      rw [hstep]
      simpa using ih htail hmem

theorem gcLoop_length (rows : List (String × String)) (objects : List ContentObject)
    (store : List (String × Bytes))
    (hobj : objects.Pairwise (fun a b => a.cid ≠ b.cid ∧ a.local_path ≠ b.local_path))
    (hrows : rows.Pairwise (fun a b => a.1 ≠ b.1))
    (h2 : ∀ r ∈ objects, fsExists r.local_path store = true)
    (h4 : ∀ q ∈ rows, ∃ r ∈ objects, r.cid = q.1 ∧ r.local_path = q.2) :
    objects.length = (IPFSGateway.gcLoop rows (objects, store)).1.length + rows.length := by
  induction rows generalizing objects store with
  | nil => simp [IPFSGateway.gcLoop]
  | cons q rest ih =>
    obtain ⟨c, p⟩ := q
    rcases h4 (c, p) (List.mem_cons_self _ _) with ⟨r₀, hr₀, hc₀x, hp₀x⟩
    have hc₀ : r₀.cid = c := hc₀x
    have hp₀ : r₀.local_path = p := hp₀x
    have hex : fsExists p store = true := by
      have h := h2 r₀ hr₀
      rw [hp₀] at h
      exact h
    have hu : fsUnlink p store = some (store.filter (fun e => e.1 != p)) := by
      simp [fsUnlink, hex]
    rcases List.pairwise_cons.mp hrows with ⟨hhead, hrest⟩
    simp only [IPFSGateway.gcLoop]
    rw [hu]
    have hlen := filter_ne_cid_length (hobj.imp (fun h => h.1)) hr₀ hc₀
    have ihh := ih (objects.filter (fun r => r.cid != c)) (store.filter (fun e => e.1 != p))
      (hobj.sublist (List.filter_sublist _)) hrest
      (by
        intro r hr
        rcases List.mem_filter.mp hr with ⟨hrm, hkeep⟩
        have hrc : r.cid ≠ c := by simpa using hkeep
        have hrp : r.local_path ≠ p := by
          intro hEq
          by_cases hrr : r = r₀
          · exact hrc (hrr ▸ hc₀)
          · exact (pairwise_objects_forall hobj hrm hr₀ hrr).2 (hEq.trans hp₀.symm)
        exact fsExists_filter_of_ne (h2 r hrm) hrp)
      (by
        intro q hq
        rcases h4 q (List.mem_cons_of_mem _ hq) with ⟨r, hrm, hrc, hrp⟩
        have hqc : q.1 ≠ c := fun hEq => (hhead q hq) hEq.symm
        refine ⟨r, List.mem_filter.mpr ⟨hrm, ?_⟩, hrc, hrp⟩
        simp only [bne_iff_ne]
        exact fun hEq => hqc (hrc ▸ hEq))
    simp only [List.length_cons]
    omega

/-! ### Helper lemmas about INSERT OR REPLACE and the export fold -/

theorem store_metadata_filter_cid (obj : ContentObject) (l : List ContentObject) :
    (IPFSGateway._store_metadata obj l).filter (fun r => r.cid == obj.cid) = [obj] := by
  unfold IPFSGateway._store_metadata
  rw [List.filter_append]
  have h1 : (l.filter (fun r => !(r.cid == obj.cid || r.local_path == obj.local_path))).filter
      (fun r => r.cid == obj.cid) = [] := by
    rw [List.filter_eq_nil_iff]
    intro r hr
    rcases List.mem_filter.mp hr with ⟨-, hkeep⟩
    simp only [Bool.not_eq_true', Bool.or_eq_false_iff] at hkeep
    simp [hkeep.1]
  rw [h1]
  simp

theorem fsWrite_filter_path (p : String) (d : Bytes) (store : List (String × Bytes)) :
    (fsWrite p d store).filter (fun e => e.1 == p) = [(p, d)] := by
  unfold fsWrite
  rw [List.filter_append]
  have h1 : (store.filter (fun e => e.1 != p)).filter (fun e => e.1 == p) = [] := by
    rw [List.filter_eq_nil_iff]
    intro e he
    rcases List.mem_filter.mp he with ⟨-, hkeep⟩
    simp only [bne_iff_ne] at hkeep
    simp [hkeep]
  rw [h1]
  simp

theorem find?_store_metadata (obj : ContentObject) (l : List ContentObject) :
    (IPFSGateway._store_metadata obj l).find? (fun r => r.cid == obj.cid) = some obj := by
  unfold IPFSGateway._store_metadata
  rw [List.find?_append]
  have h1 : (l.filter (fun r => !(r.cid == obj.cid || r.local_path == obj.local_path))).find?
      (fun r => r.cid == obj.cid) = none := by
    rw [List.find?_eq_none]
    intro r hr
    rcases List.mem_filter.mp hr with ⟨-, hkeep⟩
    simp only [Bool.not_eq_true', Bool.or_eq_false_iff] at hkeep
    simp [hkeep.1]
  rw [h1]
  simp [List.find?]

theorem export_fold_eq (st : GatewayState) (cids : List String) (acc : List ContentObject) :
    cids.foldl
        (fun acc cid =>
          match IPFSGateway.get st cid with
          | some o => acc ++ [o]
          | none => acc)
        acc
      = acc ++ cids.filterMap (fun c => IPFSGateway.get st c) := by
  induction cids generalizing acc with
  | nil => simp
  | cons c rest ih =>
    cases h : IPFSGateway.get st c with
    | none => simp [List.foldl_cons, h, ih, List.filterMap_cons]
    | some o => simp [List.foldl_cons, h, ih, List.filterMap_cons]

/-! ### Claim theorems -/

/-- C6: the digest function is deterministic and pure: identical byte sequences
always yield the identical identifier, independent of any gateway state or
time (the function takes nothing but the bytes). -/
theorem compute_cid_deterministic (b₁ b₂ : Bytes) (h : b₁ = b₂) :
    IPFSGateway._compute_cid b₁ = IPFSGateway._compute_cid b₂ :=
  congrArg IPFSGateway._compute_cid h

theorem compute_cid_deterministic_witness :
    ([104, 105] : Bytes) = [104, 105] ∧
    IPFSGateway._compute_cid [104, 105] = IPFSGateway._compute_cid [104, 105] :=
  ⟨rfl, compute_cid_deterministic [104, 105] [104, 105] rfl⟩

/-- C8: `export_car` emits a bundle with `version = 1` whose objects are exactly
the metadata records of the identifiers that are found, in request order, with
unknown identifiers silently omitted; the bundle holds `ContentObject` metadata
only, no blob bytes. -/
theorem export_car_bundle (st : GatewayState) (cids : List String) :
    (IPFSGateway.export_car st cids).version = 1 ∧
    (IPFSGateway.export_car st cids).objects
      = cids.filterMap (fun c => IPFSGateway.get st c) := by
  refine ⟨rfl, ?_⟩
  show cids.foldl
      (fun acc cid =>
        match IPFSGateway.get st cid with
        | some o => acc ++ [o]
        | none => acc)
      [] = _
  simpa using export_fold_eq st cids []

/-- C9: `add_file` on a missing source path fails fast with the input-not-found
error and returns the state unchanged: neither the blob store nor the metadata
index is mutated. -/
theorem add_file_missing_input (st : GatewayState) (fileName suffix : String) (now : Int) :
    IPFSGateway.add_file st none fileName suffix now = (st, .error .fileNotFound) := rfl

/-- C3: pin immunity: a record with `pinned = true` is never selected by the GC
sweep, however old its `uploaded_at` is; it stays in the index, `get` still
returns it after the sweep, and its blob (if present) stays in the store. -/
theorem gc_pin_immunity (st : GatewayState) (now : Int) (hwf : IPFSGateway.WF st)
    (r : ContentObject) (hr : r ∈ st.objects) (hpin : r.pinned = true) :
    r ∈ (IPFSGateway.gc st now).1.objects ∧
    IPFSGateway.get (IPFSGateway.gc st now).1 r.cid = some r ∧
    (fsExists r.local_path st.store = true →
      fsExists r.local_path (IPFSGateway.gc st now).1.store = true) := by
  obtain ⟨hobj, hstore⟩ := hwf
  have hne : ∀ q ∈ IPFSGateway.eligibleRows now st.objects,
      q.1 ≠ r.cid ∧ q.2 ≠ r.local_path := by
    intro q hq
    rcases eligibleRows_mem_elim hq with ⟨r', hr', hpin', hage', hc', hp'⟩
    have hrr : r' ≠ r := by
      intro hEq
      rw [hEq, hpin] at hpin'
      cases hpin'
    refine ⟨fun hEq => ?_, fun hEq => ?_⟩
    · exact (pairwise_objects_forall hobj hr' hr hrr).1 (hc'.trans hEq)
    · exact (pairwise_objects_forall hobj hr' hr hrr).2 (hp'.trans hEq)
  have hmemfin : r ∈ (IPFSGateway.gcLoop (IPFSGateway.eligibleRows now st.objects)
      (st.objects, st.store)).1 :=
    gcLoop_keep_obj hr (fun q hq => (hne q hq).1)
  refine ⟨hmemfin, ?_, ?_⟩
  · exact find?_cid_unique
      ((hobj.imp (fun h => h.1)).sublist
        (gcLoop_objects_sublist (IPFSGateway.eligibleRows now st.objects) st.objects st.store))
      hmemfin
  · intro hex
    exact gcLoop_keep_path hex (fun q hq => (hne q hq).2)

def wStC3 : GatewayState :=
  ⟨[⟨"QmPinned", "p.txt", 2, "text/plain", true, 0, IPFSGateway.blobPath "QmPinned"⟩],
   [(IPFSGateway.blobPath "QmPinned", [104, 105])]⟩

def wRecC3 : ContentObject :=
  ⟨"QmPinned", "p.txt", 2, "text/plain", true, 0, IPFSGateway.blobPath "QmPinned"⟩

theorem gc_pin_immunity_witness :
    IPFSGateway.WF wStC3 ∧ wRecC3 ∈ wStC3.objects ∧ wRecC3.pinned = true ∧
    (wRecC3 ∈ (IPFSGateway.gc wStC3 1000000).1.objects ∧
     IPFSGateway.get (IPFSGateway.gc wStC3 1000000).1 wRecC3.cid = some wRecC3 ∧
     (fsExists wRecC3.local_path wStC3.store = true →
       fsExists wRecC3.local_path (IPFSGateway.gc wStC3 1000000).1.store = true)) :=
  ⟨by decide, by decide, by decide,
   gc_pin_immunity wStC3 1000000 (by decide) wRecC3 (by decide) (by decide)⟩

/-- C4: age-threshold boundary: an unpinned record one second older than
`now - 24h` is selected and (its blob being present) fully reclaimed, while an
unpinned record one second younger than the cutoff is not selected: it stays in
the index and `get` still returns it. -/
theorem gc_age_boundary (st : GatewayState) (now : Int) (hwf : IPFSGateway.WF st)
    (r : ContentObject) (hr : r ∈ st.objects) (hpin : r.pinned = false) :
    (r.uploaded_at = now - IPFSGateway.maxAge - 1 → fsExists r.local_path st.store = true →
      ∀ q ∈ (IPFSGateway.gc st now).1.objects, q.cid ≠ r.cid) ∧
    (r.uploaded_at = now - IPFSGateway.maxAge + 1 →
      r ∈ (IPFSGateway.gc st now).1.objects ∧
      IPFSGateway.get (IPFSGateway.gc st now).1 r.cid = some r) := by
  obtain ⟨hobj, hstore⟩ := hwf
  constructor
  · intro hage hex
    have hlt : r.uploaded_at < now - IPFSGateway.maxAge := by rw [hage]; omega
    exact (gcLoop_delete (eligibleRows_pairwise hobj)
      (eligibleRows_mem_intro hr hpin hlt) hex).1
  · intro hage
    have hnotelig : ∀ q ∈ IPFSGateway.eligibleRows now st.objects, q.1 ≠ r.cid := by
      intro q hq hEq
      rcases eligibleRows_mem_elim hq with ⟨r', hr', hpin', hage', hc', hp'⟩
      by_cases hrr : r' = r
      · rw [hrr, hage] at hage'
        omega
      · exact (pairwise_objects_forall hobj hr' hr hrr).1 (hc'.trans hEq)
    have hmemfin : r ∈ (IPFSGateway.gcLoop (IPFSGateway.eligibleRows now st.objects)
        (st.objects, st.store)).1 := gcLoop_keep_obj hr hnotelig
    exact ⟨hmemfin,
      find?_cid_unique
        ((hobj.imp (fun h => h.1)).sublist (gcLoop_objects_sublist _ _ _)) hmemfin⟩

def wRecC4a : ContentObject :=
  ⟨"QmOld", "o.txt", 1, "text/plain", false, 13599, IPFSGateway.blobPath "QmOld"⟩

def wRecC4b : ContentObject :=
  ⟨"QmNew", "n.txt", 1, "text/plain", false, 13601, IPFSGateway.blobPath "QmNew"⟩

def wStC4 : GatewayState :=
  ⟨[wRecC4a, wRecC4b],
   [(IPFSGateway.blobPath "QmOld", [0]), (IPFSGateway.blobPath "QmNew", [1])]⟩

theorem gc_age_boundary_witness :
    IPFSGateway.WF wStC4 ∧
    wRecC4a.uploaded_at = 100000 - IPFSGateway.maxAge - 1 ∧
    wRecC4b.uploaded_at = 100000 - IPFSGateway.maxAge + 1 ∧
    (∀ q ∈ (IPFSGateway.gc wStC4 100000).1.objects, q.cid ≠ wRecC4a.cid) ∧
    (wRecC4b ∈ (IPFSGateway.gc wStC4 100000).1.objects ∧
     IPFSGateway.get (IPFSGateway.gc wStC4 100000).1 wRecC4b.cid = some wRecC4b) :=
  ⟨by decide, by decide, by decide,
   (gc_age_boundary wStC4 100000 (by decide) wRecC4a (by decide) (by decide)).1
     (by decide) (by decide),
   (gc_age_boundary wStC4 100000 (by decide) wRecC4b (by decide) (by decide)).2
     (by decide)⟩

def cexRecC2 : ContentObject :=
  ⟨"QmGone", "g.txt", 2, "text/plain", false, 0, IPFSGateway.blobPath "QmGone"⟩

def cexStC2 : GatewayState := ⟨[cexRecC2], []⟩

/-- C2 counterexample: an eligible record whose backing blob is already absent
does NOT have its index record removed by the sweep — the failed `unlink`
raises before the index `DELETE`, which is therefore skipped. -/
theorem gc_missing_blob_keeps_record :
    cexRecC2.pinned = false ∧ cexRecC2.uploaded_at < 200000 - IPFSGateway.maxAge ∧
    fsExists cexRecC2.local_path cexStC2.store = false ∧
    cexRecC2 ∈ (IPFSGateway.gc cexStC2 200000).1.objects := by decide

/-- C2 (amended): for each eligible record the sweep deletes the blob and then
the index record; when the blob exists both deletions happen regardless of
failures on other records, and when the blob is already absent the failure is
tolerated (the sweep continues with the other eligible records) but that
record's index row is retained, not removed. -/
theorem gc_per_item_tolerance (st : GatewayState) (now : Int) (hwf : IPFSGateway.WF st)
    (r : ContentObject) (hr : r ∈ st.objects) (hpin : r.pinned = false)
    (hage : r.uploaded_at < now - IPFSGateway.maxAge) :
    (fsExists r.local_path st.store = true →
      (∀ q ∈ (IPFSGateway.gc st now).1.objects, q.cid ≠ r.cid) ∧
      fsExists r.local_path (IPFSGateway.gc st now).1.store = false) ∧
    (fsExists r.local_path st.store = false →
      r ∈ (IPFSGateway.gc st now).1.objects) := by
  obtain ⟨hobj, hstore⟩ := hwf
  constructor
  · intro hex
    exact gcLoop_delete (eligibleRows_pairwise hobj)
      (eligibleRows_mem_intro hr hpin hage) hex
  · intro hdead
    apply gcLoop_keep_obj_dead hr
    intro q hq hqc
    rcases eligibleRows_mem_elim hq with ⟨r', hr', hpin', hage', hc', hp'⟩
    by_cases hrr : r' = r
    · rw [← hp', hrr]
      exact hdead
    · exact absurd (hc'.trans hqc) (pairwise_objects_forall hobj hr' hr hrr).1

def wRecC2live : ContentObject :=
  ⟨"QmLive", "l.txt", 1, "text/plain", false, 0, IPFSGateway.blobPath "QmLive"⟩

def wRecC2dead : ContentObject :=
  ⟨"QmDead", "d.txt", 1, "text/plain", false, 0, IPFSGateway.blobPath "QmDead"⟩

def wStC2 : GatewayState :=
  ⟨[wRecC2dead, wRecC2live], [(IPFSGateway.blobPath "QmLive", [7])]⟩

theorem gc_per_item_tolerance_witness :
    IPFSGateway.WF wStC2 ∧
    fsExists wRecC2live.local_path wStC2.store = true ∧
    fsExists wRecC2dead.local_path wStC2.store = false ∧
    ((∀ q ∈ (IPFSGateway.gc wStC2 200000).1.objects, q.cid ≠ wRecC2live.cid) ∧
     fsExists wRecC2live.local_path (IPFSGateway.gc wStC2 200000).1.store = false) ∧
    wRecC2dead ∈ (IPFSGateway.gc wStC2 200000).1.objects :=
  ⟨by decide, by decide, by decide,
   (gc_per_item_tolerance wStC2 200000 (by decide) wRecC2live (by decide) (by decide)
     (by decide)).1 (by decide),
   (gc_per_item_tolerance wStC2 200000 (by decide) wRecC2dead (by decide) (by decide)
     (by decide)).2 (by decide)⟩

def cexRecC1 : ContentObject :=
  ⟨"QmLost", "x.txt", 2, "text/plain", false, 0, IPFSGateway.blobPath "QmLost"⟩

def cexStC1 : GatewayState := ⟨[cexRecC1], []⟩

/-- C1 counterexample: a sweep over one eligible record whose per-item deletion
fails (blob absent) still returns 1, although zero records were reclaimed (the
record is still in the index): the return value counts eligible rows, not
successful reclamations. -/
theorem gc_count_counterexample :
    (IPFSGateway.gc cexStC1 200000).2 = 1 ∧
    cexRecC1.pinned = false ∧ cexRecC1.uploaded_at < 200000 - IPFSGateway.maxAge ∧
    (IPFSGateway.gc cexStC1 200000).1.objects = [cexRecC1] := by decide

/-- C1 (amended): `gc` returns the number of records that matched the
eligibility predicate (`pinned = false` and `uploaded_at` below the cutoff)
when the sweep started, counting also records whose per-item deletion failed;
when every record's blob is present (so no per-item failure can occur) this
equals the number of index records actually removed. -/
theorem gc_count (st : GatewayState) (now : Int) :
    (IPFSGateway.gc st now).2
      = (st.objects.filter
          (fun r => r.pinned == false
            && decide (r.uploaded_at < now - IPFSGateway.maxAge))).length ∧
    (IPFSGateway.WF st → (∀ r ∈ st.objects, fsExists r.local_path st.store = true) →
      st.objects.length
        = (IPFSGateway.gc st now).1.objects.length + (IPFSGateway.gc st now).2) := by
  constructor
  · show (IPFSGateway.eligibleRows now st.objects).length = _
    unfold IPFSGateway.eligibleRows
    rw [List.length_map]
  · rintro ⟨hobj, hstore⟩ h2
    have h4 : ∀ q ∈ IPFSGateway.eligibleRows now st.objects,
        ∃ r ∈ st.objects, r.cid = q.1 ∧ r.local_path = q.2 := by
      intro q hq
      rcases eligibleRows_mem_elim hq with ⟨r, hr, -, -, hc, hp⟩
      exact ⟨r, hr, hc, hp⟩
    exact gcLoop_length (IPFSGateway.eligibleRows now st.objects) st.objects st.store hobj
      ((eligibleRows_pairwise hobj).imp (fun h => h.1)) h2 h4

def wRecC1 : ContentObject :=
  ⟨"QmCnt", "c.txt", 1, "text/plain", false, 0, IPFSGateway.blobPath "QmCnt"⟩

def wStC1 : GatewayState := ⟨[wRecC1], [(IPFSGateway.blobPath "QmCnt", [9])]⟩

theorem gc_count_witness :
    (IPFSGateway.gc wStC1 200000).2
      = (wStC1.objects.filter
          (fun r => r.pinned == false
            && decide (r.uploaded_at < 200000 - IPFSGateway.maxAge))).length ∧
    IPFSGateway.WF wStC1 ∧
    (∀ r ∈ wStC1.objects, fsExists r.local_path wStC1.store = true) ∧
    wStC1.objects.length
      = (IPFSGateway.gc wStC1 200000).1.objects.length + (IPFSGateway.gc wStC1 200000).2 :=
  ⟨(gc_count wStC1 200000).1, by decide, by decide,
   (gc_count wStC1 200000).2 (by decide) (by decide)⟩

/-! ### Integrity preservation by INSERT OR REPLACE plus blob write -/

theorem fsExists_fsWrite_self (p : String) (d : Bytes) (store : List (String × Bytes)) :
    fsExists p (fsWrite p d store) = true := by
  unfold fsWrite fsExists
  rw [List.any_append]
  simp

theorem fsExists_fsWrite_other {p lp : String} (d : Bytes) {store : List (String × Bytes)}
    (hne : p ≠ lp) (h : fsExists p store = true) :
    fsExists p (fsWrite lp d store) = true := by
  have hleft : fsExists p (store.filter (fun e => e.1 != lp)) = true :=
    fsExists_filter_of_ne h hne
  unfold fsWrite fsExists
  unfold fsExists at hleft
  rw [List.any_append]
  simp [hleft]

theorem upsert_preserves_integrity (obj : ContentObject) (objects : List ContentObject)
    (store : List (String × Bytes)) (d : Bytes)
    (hobjcan : ∀ r ∈ objects, r.local_path = IPFSGateway.blobPath r.cid)
    (hcanobj : obj.local_path = IPFSGateway.blobPath obj.cid)
    (h2 : ∀ r ∈ objects, fsExists r.local_path store = true)
    (h3 : ∀ e ∈ store, ∃ r ∈ objects, r.local_path = e.1) :
    (∀ r ∈ IPFSGateway._store_metadata obj objects,
        fsExists r.local_path (fsWrite obj.local_path d store) = true) ∧
    (∀ e ∈ fsWrite obj.local_path d store,
        ∃ r ∈ IPFSGateway._store_metadata obj objects, r.local_path = e.1) := by
  constructor
  · intro r hr
    rcases List.mem_append.mp hr with hleft | hright
    · rcases List.mem_filter.mp hleft with ⟨hrm, hkeep⟩
      have hne : r.local_path ≠ obj.local_path := by
        simp only [Bool.not_eq_true', Bool.or_eq_false_iff] at hkeep
        simpa using hkeep.2
      exact fsExists_fsWrite_other d hne (h2 r hrm)
    · have hro : r = obj := by simpa using hright
      subst hro
      exact fsExists_fsWrite_self r.local_path d store
  · intro e he
    unfold fsWrite at he
    rcases List.mem_append.mp he with hleft | hright
    · rcases List.mem_filter.mp hleft with ⟨hem, hkeep⟩
      have hne : e.1 ≠ obj.local_path := by simpa using hkeep
      rcases h3 e hem with ⟨r, hrm, hrp⟩
      have hrcid : r.cid ≠ obj.cid := by
        intro hEq
        apply hne
        rw [← hrp, hobjcan r hrm, hEq, ← hcanobj]
      have hrpath : r.local_path ≠ obj.local_path := by
        intro hEq
        exact hne (hrp.symm.trans hEq)
      refine ⟨r, List.mem_append.mpr (Or.inl (List.mem_filter.mpr ⟨hrm, ?_⟩)), hrp⟩
      simp only [Bool.not_eq_true', Bool.or_eq_false_iff]
      constructor
      · simpa using hrcid
      · simpa using hrpath
    · have heo : e = (obj.local_path, d) := by simpa using hright
      subst heo
      exact ⟨obj, List.mem_append.mpr (Or.inr (by simp)), rfl⟩

/-- C5: referential integrity is an invariant: on a well-formed state with
canonical blob paths where every index record's blob exists and every blob is
referenced by a record, both a GC sweep and a successful `add_file` preserve
the property; in particular, after `gc` every remaining record's storage
location still resolves in the blob store. -/
theorem gc_preserves_ref_integrity (st : GatewayState) (now : Int) (b : Bytes)
    (fileName suffix : String) (t : Int) (hwf : IPFSGateway.WF st)
    (hri : IPFSGateway.RefIntegrity st) (hcan : IPFSGateway.CanonicalPaths st) :
    IPFSGateway.RefIntegrity (IPFSGateway.gc st now).1 ∧
    IPFSGateway.RefIntegrity (IPFSGateway.add_file st (some b) fileName suffix t).1 := by
  obtain ⟨hobj, hstore⟩ := hwf
  obtain ⟨h2, h3⟩ := hri
  constructor
  · have h4 : ∀ q ∈ IPFSGateway.eligibleRows now st.objects,
        ∃ r ∈ st.objects, r.cid = q.1 ∧ r.local_path = q.2 := by
      intro q hq
      rcases eligibleRows_mem_elim hq with ⟨r, hr, -, -, hc, hp⟩
      exact ⟨r, hr, hc, hp⟩
    exact gcLoop_integrity (IPFSGateway.eligibleRows now st.objects) st.objects st.store hobj
      ((eligibleRows_pairwise hobj).imp (fun h => h.1)) h2 h3 h4
  · exact upsert_preserves_integrity
      { cid := IPFSGateway._compute_cid b, name := fileName, size_bytes := b.length,
        mime_type := IPFSGateway.mimeFor suffix, pinned := false, uploaded_at := t,
        local_path := IPFSGateway.blobPath (IPFSGateway._compute_cid b) }
      st.objects st.store b hcan rfl h2 h3

def wRecC5 : ContentObject :=
  ⟨"Qm5", "f.txt", 1, "text/plain", false, 0, IPFSGateway.blobPath "Qm5"⟩

def wStC5 : GatewayState := ⟨[wRecC5], [(IPFSGateway.blobPath "Qm5", [3])]⟩

theorem gc_preserves_ref_integrity_witness :
    IPFSGateway.WF wStC5 ∧ IPFSGateway.RefIntegrity wStC5 ∧
    IPFSGateway.CanonicalPaths wStC5 ∧
    (IPFSGateway.RefIntegrity (IPFSGateway.gc wStC5 200000).1 ∧
     IPFSGateway.RefIntegrity (IPFSGateway.add_file wStC5 (some [104]) "h.bin" "" 5).1) :=
  ⟨by decide, by decide, by decide,
   gc_preserves_ref_integrity wStC5 200000 [104] "h.bin" "" 5
     (by decide) (by decide) (by decide)⟩

/-- C7: re-adding identical bytes is idempotent: the second add computes the
same cid and blob path, leaves exactly one index row for that cid and exactly
one blob at that path (INSERT OR REPLACE by primary key, never a duplicate
row), and the surviving record carries the second write's name, media type and
upload time. -/
theorem add_file_idempotent (st : GatewayState) (b : Bytes) (n₁ s₁ n₂ s₂ : String)
    (t₁ t₂ : Int) (st₁ st₂ : GatewayState) (o₁ o₂ : ContentObject)
    (h₁ : IPFSGateway.add_file st (some b) n₁ s₁ t₁ = (st₁, .ok o₁))
    (h₂ : IPFSGateway.add_file st₁ (some b) n₂ s₂ t₂ = (st₂, .ok o₂)) :
    o₂.cid = o₁.cid ∧ o₂.local_path = o₁.local_path ∧
    (st₂.objects.filter (fun r => r.cid == o₁.cid)).length = 1 ∧
    (st₂.store.filter (fun e => e.1 == o₁.local_path)).length = 1 ∧
    IPFSGateway.get st₂ o₁.cid = some o₂ ∧
    o₂.name = n₂ ∧ o₂.mime_type = IPFSGateway.mimeFor s₂ ∧
    o₂.uploaded_at = t₂ ∧ o₂.size_bytes = b.length := by
  simp only [IPFSGateway.add_file, Prod.mk.injEq, Except.ok.injEq] at h₁ h₂
  obtain ⟨hst₁, ho₁⟩ := h₁
  obtain ⟨hst₂, ho₂⟩ := h₂
  subst hst₁
  subst hst₂
  subst ho₁
  subst ho₂
  refine ⟨rfl, rfl, ?_, ?_, ?_, rfl, rfl, rfl, rfl⟩
  · simpa using congrArg List.length
      (store_metadata_filter_cid
        { cid := IPFSGateway._compute_cid b, name := n₂, size_bytes := b.length,
          mime_type := IPFSGateway.mimeFor s₂, pinned := false, uploaded_at := t₂,
          local_path := IPFSGateway.blobPath (IPFSGateway._compute_cid b) }
        (IPFSGateway._store_metadata
          { cid := IPFSGateway._compute_cid b, name := n₁, size_bytes := b.length,
            mime_type := IPFSGateway.mimeFor s₁, pinned := false, uploaded_at := t₁,
            local_path := IPFSGateway.blobPath (IPFSGateway._compute_cid b) }
          st.objects))
  · simpa using congrArg List.length
      (fsWrite_filter_path (IPFSGateway.blobPath (IPFSGateway._compute_cid b)) b
        (fsWrite (IPFSGateway.blobPath (IPFSGateway._compute_cid b)) b st.store))
  · show (IPFSGateway._store_metadata
        { cid := IPFSGateway._compute_cid b, name := n₂, size_bytes := b.length,
          mime_type := IPFSGateway.mimeFor s₂, pinned := false, uploaded_at := t₂,
          local_path := IPFSGateway.blobPath (IPFSGateway._compute_cid b) }
        (IPFSGateway._store_metadata
          { cid := IPFSGateway._compute_cid b, name := n₁, size_bytes := b.length,
            mime_type := IPFSGateway.mimeFor s₁, pinned := false, uploaded_at := t₁,
            local_path := IPFSGateway.blobPath (IPFSGateway._compute_cid b) }
          st.objects)).find? (fun r => r.cid == IPFSGateway._compute_cid b) = _
    exact find?_store_metadata
      { cid := IPFSGateway._compute_cid b, name := n₂, size_bytes := b.length,
        mime_type := IPFSGateway.mimeFor s₂, pinned := false, uploaded_at := t₂,
        local_path := IPFSGateway.blobPath (IPFSGateway._compute_cid b) }
      (IPFSGateway._store_metadata
        { cid := IPFSGateway._compute_cid b, name := n₁, size_bytes := b.length,
          mime_type := IPFSGateway.mimeFor s₁, pinned := false, uploaded_at := t₁,
          local_path := IPFSGateway.blobPath (IPFSGateway._compute_cid b) }
        st.objects)

def wCidC7 : String := IPFSGateway._compute_cid [104, 105]

def wObjC7a : ContentObject :=
  ⟨wCidC7, "hello.txt", 2, "text/plain", false, 10, IPFSGateway.blobPath wCidC7⟩

def wStC7a : GatewayState := ⟨[wObjC7a], [(IPFSGateway.blobPath wCidC7, [104, 105])]⟩

def wObjC7b : ContentObject :=
  ⟨wCidC7, "hi.md", 2, "text/markdown", false, 20, IPFSGateway.blobPath wCidC7⟩

def wStC7b : GatewayState := ⟨[wObjC7b], [(IPFSGateway.blobPath wCidC7, [104, 105])]⟩

set_option maxHeartbeats 4000000 in
set_option maxRecDepth 100000 in
theorem add_file_idempotent_witness :
    IPFSGateway.add_file ⟨[], []⟩ (some [104, 105]) "hello.txt" ".txt" 10
      = (wStC7a, .ok wObjC7a) ∧
    IPFSGateway.add_file wStC7a (some [104, 105]) "hi.md" ".md" 20
      = (wStC7b, .ok wObjC7b) ∧
    (wObjC7b.cid = wObjC7a.cid ∧ wObjC7b.local_path = wObjC7a.local_path ∧
     (wStC7b.objects.filter (fun r => r.cid == wObjC7a.cid)).length = 1 ∧
     (wStC7b.store.filter (fun e => e.1 == wObjC7a.local_path)).length = 1 ∧
     IPFSGateway.get wStC7b wObjC7a.cid = some wObjC7b ∧
     wObjC7b.name = "hi.md" ∧ wObjC7b.mime_type = IPFSGateway.mimeFor ".md" ∧
     wObjC7b.uploaded_at = 20 ∧ wObjC7b.size_bytes = ([104, 105] : Bytes).length) :=
  ⟨rfl, rfl,
   add_file_idempotent ⟨[], []⟩ [104, 105] "hello.txt" ".txt" "hi.md" ".md" 10 20
     wStC7a wStC7b wObjC7a wObjC7b rfl rfl⟩

/-- C10: frame property of `pin` and `unpin`: on an unknown cid both return
false and leave the state untouched; on a known cid both return true, touch no
blob, keep the index size, change only the `pinned` field of the looked-up
record (all other fields preserved), and leave every record with a different
cid in place (in both directions). -/
theorem pin_unpin_frame (st : GatewayState) (c : String) :
    (IPFSGateway.get st c = none →
      IPFSGateway.pin st c = (st, false) ∧ IPFSGateway.unpin st c = (st, false)) ∧
    (∀ r, IPFSGateway.get st c = some r →
      (IPFSGateway.pin st c).2 = true ∧ (IPFSGateway.unpin st c).2 = true ∧
      (IPFSGateway.pin st c).1.store = st.store ∧
      (IPFSGateway.unpin st c).1.store = st.store ∧
      IPFSGateway.get (IPFSGateway.pin st c).1 c = some { r with pinned := true } ∧
      IPFSGateway.get (IPFSGateway.unpin st c).1 c = some { r with pinned := false } ∧
      (∀ q ∈ st.objects, q.cid ≠ c →
        q ∈ (IPFSGateway.pin st c).1.objects ∧ q ∈ (IPFSGateway.unpin st c).1.objects) ∧
      (∀ q ∈ (IPFSGateway.pin st c).1.objects, q.cid ≠ c → q ∈ st.objects) ∧
      (∀ q ∈ (IPFSGateway.unpin st c).1.objects, q.cid ≠ c → q ∈ st.objects) ∧
      (IPFSGateway.pin st c).1.objects.length = st.objects.length ∧
      (IPFSGateway.unpin st c).1.objects.length = st.objects.length) := by
  constructor
  · intro h
    constructor
    · simp [IPFSGateway.pin, h]
    · simp [IPFSGateway.unpin, h]
  · intro r h
    have hfind : st.objects.find? (fun q => q.cid == c) = some r := h
    have hrc := List.find?_some hfind
    have hcidT : ∀ x : ContentObject,
        ((if x.cid == c then { x with pinned := true } else x) : ContentObject).cid = x.cid := by
      intro x
      by_cases hx : (x.cid == c) = true
      · simp [hx]
      · simp [hx]
    have hcidF : ∀ x : ContentObject,
        ((if x.cid == c then { x with pinned := false } else x) : ContentObject).cid = x.cid := by
      intro x
      by_cases hx : (x.cid == c) = true
      · simp [hx]
      · simp [hx]
    refine ⟨by simp [IPFSGateway.pin, h], by simp [IPFSGateway.unpin, h],
      by simp [IPFSGateway.pin, h], by simp [IPFSGateway.unpin, h], ?_, ?_, ?_, ?_, ?_, ?_, ?_⟩
    · simp only [IPFSGateway.pin, h]
      show (st.objects.map fun x => if x.cid == c then { x with pinned := true } else x).find?
          (fun q => q.cid == c) = _
      rw [find?_map_cid_inv hcidT, hfind]
      have hrc2 : r.cid = c := by simpa using hrc
      simp [hrc2]
    · simp only [IPFSGateway.unpin, h]
      show (st.objects.map fun x => if x.cid == c then { x with pinned := false } else x).find?
          (fun q => q.cid == c) = _
      rw [find?_map_cid_inv hcidF, hfind]
      have hrc2 : r.cid = c := by simpa using hrc
      simp [hrc2]
    · intro q hq hqc
      have hq' : (q.cid == c) = false := by simpa using hqc
      constructor
      · simp only [IPFSGateway.pin, h]
        exact List.mem_map.mpr ⟨q, hq, by simp [hq']⟩
      · simp only [IPFSGateway.unpin, h]
        exact List.mem_map.mpr ⟨q, hq, by simp [hq']⟩
    · intro q hq hqc
      simp only [IPFSGateway.pin, h] at hq
      rcases List.mem_map.mp hq with ⟨a, ha, hfa⟩
      by_cases hac : (a.cid == c) = true
      · exfalso
        apply hqc
        rw [← hfa]
        simp [hac]
        simpa using hac
      · rw [← hfa]
        simpa [hac] using ha
    · intro q hq hqc
      simp only [IPFSGateway.unpin, h] at hq
      rcases List.mem_map.mp hq with ⟨a, ha, hfa⟩
      by_cases hac : (a.cid == c) = true
      · exfalso
        apply hqc
        rw [← hfa]
        simp [hac]
        simpa using hac
      · rw [← hfa]
        simpa [hac] using ha
    · simp [IPFSGateway.pin, h]
    · simp [IPFSGateway.unpin, h]

def wRecC10 : ContentObject :=
  ⟨"QmTen", "t.txt", 1, "text/plain", false, 0, IPFSGateway.blobPath "QmTen"⟩

def wStC10 : GatewayState := ⟨[wRecC10], [(IPFSGateway.blobPath "QmTen", [1])]⟩

theorem pin_unpin_frame_witness :
    IPFSGateway.get wStC10 "QmTen" = some wRecC10 ∧
    IPFSGateway.get wStC10 "QmZzz" = none ∧
    ((IPFSGateway.pin wStC10 "QmTen").2 = true ∧
     (IPFSGateway.unpin wStC10 "QmTen").2 = true ∧
     (IPFSGateway.pin wStC10 "QmTen").1.store = wStC10.store ∧
     (IPFSGateway.unpin wStC10 "QmTen").1.store = wStC10.store ∧
     IPFSGateway.get (IPFSGateway.pin wStC10 "QmTen").1 "QmTen"
       = some { wRecC10 with pinned := true } ∧
     IPFSGateway.get (IPFSGateway.unpin wStC10 "QmTen").1 "QmTen"
       = some { wRecC10 with pinned := false } ∧
     (∀ q ∈ wStC10.objects, q.cid ≠ "QmTen" →
       q ∈ (IPFSGateway.pin wStC10 "QmTen").1.objects ∧
       q ∈ (IPFSGateway.unpin wStC10 "QmTen").1.objects) ∧
     (∀ q ∈ (IPFSGateway.pin wStC10 "QmTen").1.objects, q.cid ≠ "QmTen" →
       q ∈ wStC10.objects) ∧
     (∀ q ∈ (IPFSGateway.unpin wStC10 "QmTen").1.objects, q.cid ≠ "QmTen" →
       q ∈ wStC10.objects) ∧
     (IPFSGateway.pin wStC10 "QmTen").1.objects.length = wStC10.objects.length ∧
     (IPFSGateway.unpin wStC10 "QmTen").1.objects.length = wStC10.objects.length) ∧
    (IPFSGateway.pin wStC10 "QmZzz" = (wStC10, false) ∧
     IPFSGateway.unpin wStC10 "QmZzz" = (wStC10, false)) :=
  ⟨by decide, by decide,
   (pin_unpin_frame wStC10 "QmTen").2 wRecC10 (by decide),
   (pin_unpin_frame wStC10 "QmZzz").1 (by decide)⟩
